import Mathlib

/- Verification of the AnanBot memory / context-assembly core.

   Shallow embedding of the relevant parts of `src/multimodal.py` and
   `src/components/memory_engine.py`, `src/components/history_manager.py`,
   `src/components/karma_manager.py` of the AnanBot repository.

   Modelling conventions:
   * Python `str` values are modelled as `List Char` (`PyStr`); the CPython
     string operations used by the code (`in`, `replace`, `split`,
     `split(sep, 1)`, `strip`, `lower`) are embedded below with their CPython
     semantics (left-to-right scan over non-overlapping occurrences, both-end
     whitespace strip, truthiness of the empty string).
   * Python floats (similarity distances, timestamps) are modelled as `ℚ`,
     integers as `ℤ`/`ℕ`.
   * External capabilities (the md5 hash, the embedding model, the image
     backends, the datetime formatter, the image files on disk) are passed in
     as function parameters; the code's behaviour is a function of their
     results only.
   * Python dicts keyed by strings are modelled as association lists with
     first-match lookup (`alookup`); a parsed JSON dict has unique keys, so
     dict assignment during a single left-to-right load corresponds to the
     `List.map` / `List.filterMap` below.
   * Falsy checks on strings/lists/options (`if not text:`, `if embedding:`,
     `if img_response:`) are embedded as emptiness tests (`optTruthy`). -/

namespace AnanBot

abbrev PyStr := List Char

/-- Python `pat in s` (substring containment): `pat` is an infix of `s`. -/
def containsSub (s pat : PyStr) : Bool := decide (pat <:+: s)

/-- Worker of `pyReplace`, structurally recursive on a fuel bound (≥ the
length of the string, so the zero-fuel branch is never reached). -/
def pyReplaceGo (p₀ : Char) (ps repl : PyStr) : Nat → PyStr → PyStr
  | _, [] => []
  | 0, s => s
  | fuel + 1, c :: t =>
    if (p₀ :: ps) <+: (c :: t) then
      repl ++ pyReplaceGo p₀ ps repl fuel (t.drop ps.length)
    else
      c :: pyReplaceGo p₀ ps repl fuel t

/-- CPython `s.replace(p₀ :: ps, repl)`: scan left to right, replacing each
non-overlapping occurrence of the pattern.  The pattern is passed with an
explicit head character so it is structurally nonempty. -/
def pyReplace (p₀ : Char) (ps repl s : PyStr) : PyStr :=
  pyReplaceGo p₀ ps repl s.length s

/-- `s.replace(tok, repl)` for a token given as a plain list.  All tokens in
the embedded code are nonempty; the empty-pattern case (which CPython treats
specially) is mapped to the identity. -/
def pyReplaceTok (s tok repl : PyStr) : PyStr :=
  match tok with
  | [] => s
  | p₀ :: ps => pyReplace p₀ ps repl s

/-- CPython whitespace test used by `str.strip()`. -/
def isPySpace (c : Char) : Bool := c.isWhitespace

/-- CPython `s.strip()`: drop whitespace from both ends. -/
def pyStrip (s : PyStr) : PyStr :=
  ((s.dropWhile isPySpace).reverse.dropWhile isPySpace).reverse

/-- Worker of `pySplit`, structurally recursive on a fuel bound. -/
def pySplitGo (p₀ : Char) (ps : PyStr) : Nat → PyStr → List PyStr
  | _, [] => [[]]
  | 0, s => [s]
  | fuel + 1, c :: t =>
    if (p₀ :: ps) <+: (c :: t) then
      [] :: pySplitGo p₀ ps fuel (t.drop ps.length)
    else
      match pySplitGo p₀ ps fuel t with
      | [] => [[c]]
      | h :: r => (c :: h) :: r

/-- CPython `s.split(p₀ :: ps)`: split on each non-overlapping occurrence of
the (nonempty) separator; always returns at least one piece. -/
def pySplit (p₀ : Char) (ps s : PyStr) : List PyStr :=
  pySplitGo p₀ ps s.length s

/-- `s.split(tok)` for a token given as a plain list (tokens are nonempty in
the embedded code; an empty separator, a `ValueError` in CPython, is mapped
to the one-piece split). -/
def pySplitTok (s tok : PyStr) : List PyStr :=
  match tok with
  | [] => [s]
  | p₀ :: ps => pySplit p₀ ps s

/-- CPython `s.split(p₀ :: ps, 1)` restricted to the case where the separator
occurs: the pieces before and after the first occurrence, or `none` when the
separator does not occur. -/
def pySplitOnce (p₀ : Char) (ps : PyStr) : PyStr → Option (PyStr × PyStr)
  | [] => none
  | c :: t =>
    if (p₀ :: ps) <+: (c :: t) then
      some ([], t.drop ps.length)
    else
      (pySplitOnce p₀ ps t).map (fun q => (c :: q.1, q.2))

/-- `s.split(tok, 1)` for a token given as a plain list. -/
def pySplitOnceTok (s tok : PyStr) : Option (PyStr × PyStr) :=
  match tok with
  | [] => none
  | p₀ :: ps => pySplitOnce p₀ ps s

/-- CPython `s.lower()` (the embedded code only ever lowercases ASCII
marker/cue text). -/
def pyLower (s : PyStr) : PyStr := s.map Char.toLower

/-- Truthiness of an `Optional[str]` Python value: present and nonempty. -/
def optTruthy : Option String → Bool
  | some s => s ≠ ""
  | none => false

/-- First-match lookup in an association list (Python dict `.get`). -/
def alookup {β : Type*} : List (String × β) → String → Option β
  | [], _ => none
  | (k', v) :: t, k => if k' = k then some v else alookup t k

/-- Dict assignment `d[k] = v`: replace the first binding of `k`, or append. -/
def aset {β : Type*} : List (String × β) → String → β → List (String × β)
  | [], k, v => [(k, v)]
  | (k', v') :: t, k, v => if k' = k then (k, v) :: t else (k', v') :: aset t k v

/- ------------------------------------------------------------------
   config.py constants used by the embedded code
   ------------------------------------------------------------------ -/

def NAME : String := "NuAnantachai"

def HISTORY_MAXLEN : Nat := 1000

def CONTEXT_LENGTH_IMAGE : Nat := 3

def THRESHOLD : ℚ := 1

/-- The rational 1/2, written in normal form so concrete statements about
sample distances kernel-evaluate. -/
def halfQ : ℚ := ⟨1, 2, by decide, by decide⟩

/- ------------------------------------------------------------------
   Karma store (multimodal.py: karma_db / get_karma_info / get_karma /
   update_karma) and the karma marker scan of Multimodal.generate_text
   (multimodal.py lines 438-444)
   ------------------------------------------------------------------ -/

/-- One `karma_db` entry: either a legacy bare integer score or a dict with
score and username. -/
inductive KarmaEntry
  | legacyInt (score : ℤ)
  | info (score : ℤ) (username : String)
deriving DecidableEq

abbrev KarmaDB := List (String × KarmaEntry)

/-- `Multimodal.get_karma_info`: (score, username) with zero defaults. -/
def get_karma_info (db : KarmaDB) (uid : String) : ℤ × String :=
  match alookup db uid with
  | some (.legacyInt n) => (n, "Unknown")
  | some (.info s u) => (s, u)
  | none => (0, "Unknown")

/-- `Multimodal.get_karma`. -/
def get_karma (db : KarmaDB) (uid : String) : ℤ :=
  (get_karma_info db uid).1

/-- `Multimodal.update_karma`: add `change` to the current score; the stored
username is `username if username else current` (a present-but-empty Python
string is falsy). -/
def update_karma (db : KarmaDB) (uid : String) (change : ℤ) (username : Option String) :
    KarmaDB :=
  let cur := get_karma_info db uid
  let newName :=
    match username with
    | some u => if u = "" then cur.2 else u
    | none => cur.2
  aset db uid (.info (cur.1 + change) newName)

def karmaPlusTok : PyStr := "{karma+}".data

def karmaMinusTok : PyStr := "{karma-}".data

/-- The karma marker scan of `Multimodal.generate_text` (lines 438-444):
an `if {karma+} / elif {karma-}` chain; the matched token is removed by
`str.replace` and the result stripped. -/
def process_karma_markers (reply : PyStr) (db : KarmaDB) (uid : String)
    (username : Option String) : PyStr × KarmaDB :=
  if containsSub reply karmaPlusTok then
    (pyStrip (pyReplaceTok reply karmaPlusTok []), update_karma db uid 1 username)
  else if containsSub reply karmaMinusTok then
    (pyStrip (pyReplaceTok reply karmaMinusTok []), update_karma db uid (-1) username)
  else
    (reply, db)

/- ------------------------------------------------------------------
   Memory retrieval (memory_engine.py MemoryEngine.retrieve_context and
   multimodal.py Multimodal.retrieve_context)
   ------------------------------------------------------------------ -/

/-- One row of the chroma query result, with the code's defaults already
applied: `dist` is `results['distances'][0][i]` (0.0 when the distances list
is absent), `ts` is `metadatas[0][i].get("timestamp", 0)` (0 when metadata or
the timestamp is absent). -/
structure QRow where
  doc : String
  dist : ℚ
  ts : ℚ
deriving DecidableEq

/-- The accepted candidates: distance strictly below the threshold, in the
order the vector store returned them (both retrieve functions build
`found_memories` this way). -/
def accepted_memories (T : ℚ) (rows : List QRow) : List QRow :=
  rows.filter (fun r => r.dist < T)

/-- `MemoryEngine.retrieve_context`'s `found_memories` after
`found_memories.sort(key=lambda x: x["ts"], reverse=True)` (a stable sort,
descending by timestamp). -/
def engine_found (T : ℚ) (rows : List QRow) : List QRow :=
  (accepted_memories T rows).mergeSort (fun a b => decide (b.ts ≤ a.ts))

/-- The date label of one rendered memory: "Unknown Date" when the timestamp
is falsy, else the strftime rendering (modelled by the parameter `fmt`). -/
def date_label (fmt : ℚ → String) (ts : ℚ) : String :=
  if ts = 0 then "Unknown Date" else fmt ts

/-- `MemoryEngine.retrieve_context`'s returned string, as a function of the
query-result rows. -/
def engine_render (fmt : ℚ → String) (T : ℚ) (rows : List QRow) : String :=
  let found := engine_found T rows
  let ctx := String.join (found.map (fun m => "- [" ++ date_label fmt m.ts ++ "] " ++ m.doc ++ "\n"))
  if found.isEmpty then "" else NAME ++ " remembers about you (recent first):\n" ++ ctx ++ "\n"

/-- `Multimodal.retrieve_context`'s `found_memories`: accepted candidates in
query order, with no sort. -/
def multimodal_found (T : ℚ) (rows : List QRow) : List QRow :=
  rows.filter (fun r => r.dist < T)

/-- `Multimodal.retrieve_context`'s returned string. -/
def multimodal_render (T : ℚ) (rows : List QRow) : String :=
  let found := multimodal_found T rows
  let ctx := String.join (found.map (fun m => "- " ++ m.doc ++ "\n"))
  if found.isEmpty then "" else NAME ++ " remembers about you:\n" ++ ctx ++ "\n"

/- ------------------------------------------------------------------
   Memory extraction parsing and storage (memory_engine.py
   MemoryEngine.parse_memories / MemoryEngine.store_memory; the identical
   Multimodal.parse_memories / Multimodal._store_memory)
   ------------------------------------------------------------------ -/

def qaTok : PyStr := "{qa}".data

def ansTok : PyStr := "{answer}".data

/-- The body of the per-segment loop of `parse_memories`: a segment
containing "{answer}" is split once on that marker, both halves stripped;
other segments contribute nothing.  The `none` branch mirrors the dead
`except ValueError: continue` (CPython `split(sep, 1)` never raises for a
nonempty separator). -/
def parse_pair (part : PyStr) : List (String × String) :=
  if containsSub part ansTok then
    match pySplitOnceTok part ansTok with
    | some (q, a) => [(⟨pyStrip q⟩, ⟨pyStrip a⟩)]
    | none => []
  else []

/-- `parse_memories`: empty reply parses to nothing; otherwise split the raw
reply on "{qa}" and process each segment. -/
def parse_memories (text : String) : List (String × String) :=
  if text = "" then []
  else (pySplitTok text.data qaTok).flatMap parse_pair

/-- One stored MemoryFact of the chroma collection. -/
structure MemRecord where
  id : String
  doc : String
  userId : String
  ts : ℚ
deriving DecidableEq

abbrev Collection := List MemRecord

/-- `self.collection.get(ids=[i])` returned a nonempty id list. -/
def collection_has (c : Collection) (i : String) : Bool :=
  c.any (fun r => r.id = i)

/-- The serialized text of a parsed pair (`full_text` in the code). -/
def mem_full_text (mem : String × String) : String :=
  "Q: " ++ mem.1 ++ " A: " ++ mem.2

/-- The memory id: the hash (`generate_memory_id`, parameter `md5`) of the
serialized pair text concatenated with the user id. -/
def mem_id (md5 : String → String) (uid : String) (mem : String × String) : String :=
  md5 (mem_full_text mem ++ uid)

/-- The body of the per-pair loop of `store_memory`: skip when the derived
id already exists, skip when the embedding call fails (returns the falsy
`[]`), else add. -/
def store_step (md5 : String → String) (embed : String → List ℚ) (ts : ℚ)
    (uid : String) (c : Collection) (mem : String × String) : Collection :=
  if collection_has c (mem_id md5 uid mem) then c
  else if embed (mem_full_text mem) = [] then c
  else c ++ [⟨mem_id md5 uid mem, mem_full_text mem, uid, ts⟩]

/-- `MemoryEngine.store_memory` (= `Multimodal._store_memory`) given the
extraction model's (deterministic) raw reply `extracted`: skip short inputs,
skip empty/`NO_MEMORY` replies, else parse and insert each new pair. -/
def store_memory (md5 : String → String) (embed : String → List ℚ) (ts : ℚ)
    (c : Collection) (uid userText extracted : String) : Collection :=
  if (pyStrip userText.data).length < 3 then c
  else if extracted = "" ∨ containsSub extracted.data "NO_MEMORY".data then c
  else (parse_memories extracted).foldl (store_step md5 embed ts uid) c

/- ------------------------------------------------------------------
   History manager (history_manager.py HistoryManager, and the identical
   multimodal.py history handling)
   ------------------------------------------------------------------ -/

/-- One `deque(maxlen=N).append`: push right, evicting from the left beyond
capacity. -/
def deque_append {α : Type*} (maxlen : Nat) (l : List α) (x : α) : List α :=
  let l' := l ++ [x]
  if maxlen < l'.length then l'.drop (l'.length - maxlen) else l'

/-- Repeated `HistoryManager.add_message` on one context. -/
def add_messages {α : Type*} (maxlen : Nat) (init : List α) (msgs : List α) : List α :=
  msgs.foldl (deque_append maxlen) init

/-- CPython `l[-M:]` (for `M = 0` this is the whole list). -/
def pyLastSlice {α : Type*} (M : Nat) (l : List α) : List α :=
  if M = 0 then l else l.drop (l.length - M)

/-- `HistoryManager.update_last_images` on one context's ring: append, then
keep only the last `maxImgs` entries once the bound is exceeded. -/
def update_last_images (maxImgs : Nat) (l : List String) (p : String) : List String :=
  let l' := l ++ [p]
  if maxImgs < l'.length then pyLastSlice maxImgs l' else l'

/-- `deque(msgs, maxlen=N)`: an over-long initial list keeps its last `N`
elements. -/
def deque_init {α : Type*} (maxlen : Nat) (l : List α) : List α :=
  l.drop (l.length - maxlen)

/-- The stored shape of a context's image ring: legacy single path or list. -/
inductive StoredImage
  | single (p : String)
  | multiple (ps : List String)
deriving DecidableEq

/-- The stored (JSON) shape of one context entry: a legacy bare message list,
or a dict whose `username` / `messages` / `last_image` fields may each be
absent. -/
inductive StoredEntry (M : Type*)
  | legacy (msgs : List M)
  | modern (username : Option String) (messages : Option (List M))
      (lastImage : Option StoredImage)

/-- The in-memory state of a `HistoryManager`: the three per-context dicts. -/
structure HMState (M : Type*) where
  histories : List (String × List M)
  usernames : List (String × String)
  lastImages : List (String × List String)

/-- `HistoryManager.save`: serialize every context of `histories`, caching
`usernames.get(uid, "Unknown")` and `last_images.get(uid, [])`. -/
def hmSave {M : Type*} (s : HMState M) : List (String × StoredEntry M) :=
  s.histories.map (fun p =>
    (p.1, .modern (some ((alookup s.usernames p.1).getD "Unknown"))
      (some p.2)
      (some (.multiple ((alookup s.lastImages p.1).getD [])))))

/-- The messages of one stored entry (`entry.get("messages", [])`). -/
def entryMsgs {M : Type*} : StoredEntry M → List M
  | .legacy msgs => msgs
  | .modern _ msgs _ => msgs.getD []

/-- The username of one stored entry ("Unknown" for legacy bare lists and
missing fields). -/
def entryUsername {M : Type*} : StoredEntry M → String
  | .legacy _ => "Unknown"
  | .modern un _ _ => un.getD "Unknown"

/-- The image ring of one stored entry, when its `last_image` field is
present (a legacy single path is upgraded to a one-element list). -/
def entryImages {M : Type*} : StoredEntry M → Option (List String)
  | .legacy _ => none
  | .modern _ _ none => none
  | .modern _ _ (some (.single p)) => some [p]
  | .modern _ _ (some (.multiple ps)) => some ps

/-- `HistoryManager._load`: rebuild the three dicts from the stored file
(each message list goes through `deque(msgs, maxlen=HISTORY_MAXLEN)`; the
`last_images` dict only gains an entry when the field is present). -/
def hmLoad {M : Type*} (file : List (String × StoredEntry M)) : HMState M where
  histories := file.map (fun p => (p.1, deque_init HISTORY_MAXLEN (entryMsgs p.2)))
  usernames := file.map (fun p => (p.1, entryUsername p.2))
  lastImages := file.filterMap (fun p => (entryImages p.2).map (fun ps => (p.1, ps)))

/- ------------------------------------------------------------------
   Reply interpretation of Multimodal.generate_text (lines 434-514):
   karma scan, {gen} / {edit} marker branches, final fallback
   ------------------------------------------------------------------ -/

def genTok : PyStr := "{gen}".data

def editTok : PyStr := "{edit}".data

/-- The index of the first match of `re.search(r"\{tok\}\s*(.+)", s,
re.IGNORECASE | re.DOTALL)`: the first (case-insensitive) occurrence of the
marker that is followed by at least one further character. -/
def find_marker (tok : PyStr) : PyStr → Option Nat
  | [] => none
  | c :: t =>
    if pyLower tok <+: pyLower (c :: t) ∧ tok.length < (c :: t).length then
      some 0
    else
      (find_marker tok t).map (fun i => i + 1)

/-- The `(group(0), group(1).strip())` of the marker regex: the whole match
runs to the end of the string (`.+` under DOTALL), and the stripped keyword
text equals the strip of everything after the marker. -/
def marker_match (tok : PyStr) (s : PyStr) : Option (PyStr × PyStr) :=
  (find_marker tok s).map (fun i => (s.drop i, pyStrip (s.drop (i + tok.length))))

/-- The cue words of the edit-target heuristic (multimodal.py line 484). -/
def CUE_WORDS : List String := ["previous", "first", "old", "earlier"]

def has_cue (keywords : PyStr) : Bool :=
  CUE_WORDS.any (fun w => containsSub (pyLower keywords) w.data)

/-- The target-image selection of the edit branch (multimodal.py lines
475-491): the uploaded image of this request when truthy; else choose
`last_paths[0]` when the ring has at least two entries and a cue word
occurs in the keywords, else `last_paths[-1]` when the ring is nonempty;
a chosen path is then loaded from disk (`disk`), which may fail. -/
def select_edit_target (b64Input : Option String) (keywords : PyStr)
    (lastPaths : List String) (disk : String → Option String) : Option String :=
  if optTruthy b64Input then b64Input
  else
    let targetPath : Option String :=
      if 2 ≤ lastPaths.length ∧ has_cue keywords then lastPaths.head?
      else if lastPaths ≠ [] then lastPaths.getLast?
      else none
    match targetPath with
    | some p => if p = "" then none else disk p
    | none => none

/-- The images actually handed to the `edit_image` backend call: the single
truthy selected target, or none at all. -/
def edit_targets (b64Input : Option String) (keywords : PyStr)
    (lastPaths : List String) (disk : String → Option String) : List String :=
  match select_edit_target b64Input keywords lastPaths disk with
  | some b => if b = "" then [] else [b]
  | none => []

def genFailNote : PyStr := "\n[System: Failed to generate image]".data

def editFailNote : PyStr := "\n[System: Failed to edit image]".data

def noTargetNote : PyStr :=
  "\n[System: I cannot edit the image because no image was provided/found in history.]".data

/-- The edit branch (multimodal.py lines 469-508) applied to the already
stripped text `txt`: returns (text, produced image, updated image ring).
When no truthy target resolves, the system note is appended and the
`edit_image` backend is not consulted. -/
def edit_branch (txt keywords : PyStr) (b64Input : Option String)
    (lastPaths : List String) (disk : String → Option String)
    (edit_image : String → PyStr → Option String) (savePath : String → String) :
    PyStr × Option String × List String :=
  match edit_targets b64Input keywords lastPaths disk with
  | [] => (txt ++ noTargetNote, none, lastPaths)
  | b :: _ =>
    match edit_image b keywords with
    | some img =>
      (txt, some img, update_last_images CONTEXT_LENGTH_IMAGE lastPaths (savePath img))
    | none => (txt ++ editFailNote, none, lastPaths)

/-- The final-fallback of `Multimodal.generate_text` (lines 510-514): an
empty display text becomes "Here is your image." when a truthy image was
produced, else "What?". -/
def apply_fallback (txt : PyStr) (img : Option String) : PyStr :=
  if txt = [] then
    (if optTruthy img then "Here is your image.".data else "What?".data)
  else txt

/-- Steps 4 of `Multimodal.generate_text` (lines 434-514): the karma marker
scan, the mutually exclusive `{gen}` / `{edit}` branches, and the final
fallback.  Returns (display text, karma db, produced image, image ring).
Backend exceptions are modelled as failure results of the backend
parameters. -/
def process_reply (reply : PyStr) (db : KarmaDB) (uid : String)
    (username : Option String) (generate_image : PyStr → Option String)
    (edit_image : String → PyStr → Option String) (b64Input : Option String)
    (lastPaths : List String) (disk : String → Option String)
    (savePath : String → String) : PyStr × KarmaDB × Option String × List String :=
  let km := process_karma_markers reply db uid username
  let t1 := km.1
  let db' := km.2
  match marker_match genTok t1 with
  | some (g0, kw) =>
    let t2 := pyStrip (pyReplaceTok t1 g0 [])
    match generate_image kw with
    | some img =>
      (apply_fallback t2 (some img), db', some img,
        update_last_images CONTEXT_LENGTH_IMAGE lastPaths (savePath img))
    | none => (apply_fallback (t2 ++ genFailNote) none, db', none, lastPaths)
  | none =>
    match marker_match editTok t1 with
    | some (e0, kw) =>
      let t2 := pyStrip (pyReplaceTok t1 e0 [])
      let eb := edit_branch t2 kw b64Input lastPaths disk edit_image savePath
      (apply_fallback eb.1 eb.2.1, db', eb.2.1, eb.2.2)
    | none => (apply_fallback t1 none, db', none, lastPaths)

/- ==================================================================
   General lemmas about the embedded CPython string operations
   ================================================================== -/

theorem containsSub_iff {s pat : PyStr} : containsSub s pat = true ↔ pat <:+: s := by
  simp [containsSub]

theorem pref_inf {p s : PyStr} (h : p <+: s) : p <:+: s := by
  obtain ⟨w, hw⟩ := h
  exact ⟨[], w, by simpa using hw⟩

theorem inf_cons_ext {α : Type*} {p t : List α} (c : α) (h : p <:+: t) : p <:+: c :: t := by
  obtain ⟨u, v, huv⟩ := h
  exact ⟨c :: u, v, by simp [huv]⟩

theorem inf_cons_split {α : Type*} {p t : List α} {c : α} (h : p <:+: c :: t) :
    p <+: c :: t ∨ p <:+: t := by
  obtain ⟨u, v, huv⟩ := h
  match u with
  | [] => exact Or.inl ⟨v, by simpa using huv⟩
  | c' :: u' =>
    simp only [List.cons_append, List.cons.injEq] at huv
    exact Or.inr ⟨u', v, huv.2⟩

theorem eq_nil_of_inf {α : Type*} {p : List α} (h : p <:+: ([] : List α)) : p = [] := by
  obtain ⟨u, v, huv⟩ := h
  have := List.append_eq_nil.mp huv
  exact (List.append_eq_nil.mp this.1).2

theorem inf_drop_iff {p s : PyStr} : p <:+: s ↔ ∃ j, p <+: s.drop j := by
  constructor
  · rintro ⟨u, v, rfl⟩
    refine ⟨u.length, v, ?_⟩
    rw [List.append_assoc, List.drop_left]
  · rintro ⟨j, w, hw⟩
    exact ⟨s.take j, w, by rw [List.append_assoc, hw, List.take_append_drop]⟩

theorem inf_rev {α : Type*} {x y : List α} (h : x <:+: y) : x.reverse <:+: y.reverse := by
  obtain ⟨u, v, rfl⟩ := h
  exact ⟨v.reverse, u.reverse, by simp⟩

theorem pref_of_pref_append {B x r : PyStr} (h : B <+: x ++ r) (hlen : x.length ≤ B.length) :
    x <+: B := by
  obtain ⟨w, hw⟩ := h
  have hx : (B ++ w).take x.length = x := by
    rw [hw, List.take_left']
    rfl
  rw [List.take_append_of_le_length hlen] at hx
  exact hx ▸ ⟨B.drop x.length, List.take_append_drop _ _⟩

theorem pyReplaceGo_nil (p₀ : Char) (ps repl : PyStr) (f : Nat) :
    pyReplaceGo p₀ ps repl f [] = [] := by
  cases f <;> rfl

theorem pyReplaceGo_congr (p₀ : Char) (ps repl : PyStr) :
    ∀ (f f' : Nat) (s : PyStr), s.length ≤ f → s.length ≤ f' →
      pyReplaceGo p₀ ps repl f s = pyReplaceGo p₀ ps repl f' s := by
  intro f
  induction f with
  | zero =>
    intro f' s hf _
    have : s = [] := List.length_eq_zero.mp (Nat.le_zero.mp hf)
    subst this
    rw [pyReplaceGo_nil, pyReplaceGo_nil]
  | succ f ih =>
    intro f' s hf hf'
    match s with
    | [] => rw [pyReplaceGo_nil, pyReplaceGo_nil]
    | c :: t =>
      match f' with
      | 0 => simp at hf'
      | f'' + 1 =>
        show (if (p₀ :: ps) <+: (c :: t) then _ else _)
            = (if (p₀ :: ps) <+: (c :: t) then _ else _)
        split
        · apply congrArg (repl ++ ·)
          apply ih <;> simp only [List.length_drop, List.length_cons] at hf hf' ⊢ <;> omega
        · apply congrArg (c :: ·)
          apply ih <;> simp only [List.length_cons] at hf hf' ⊢ <;> omega

theorem pyReplace_cons (p₀ : Char) (ps repl : PyStr) (c : Char) (t : PyStr) :
    pyReplace p₀ ps repl (c :: t) =
      if (p₀ :: ps) <+: (c :: t) then
        repl ++ pyReplace p₀ ps repl (t.drop ps.length)
      else c :: pyReplace p₀ ps repl t := by
  show pyReplaceGo p₀ ps repl (t.length + 1) (c :: t) = _
  show (if (p₀ :: ps) <+: (c :: t) then
      repl ++ pyReplaceGo p₀ ps repl t.length (t.drop ps.length)
    else c :: pyReplaceGo p₀ ps repl t.length t) = _
  split
  · exact congrArg (repl ++ ·)
      (pyReplaceGo_congr _ _ _ _ _ _ (by simp [Nat.sub_le]) (le_refl _))
  · rfl

theorem pyReplace_skip (p₀ : Char) (ps : PyStr) :
    ∀ (m : Nat) (s : PyStr), m ≤ s.length →
      (∀ k, k < m → ¬ (p₀ :: ps) <+: s.drop k) →
      pyReplace p₀ ps [] s = s.take m ++ pyReplace p₀ ps [] (s.drop m) := by
  intro m
  induction m with
  | zero => simp
  | succ m ih =>
    intro s hm hk
    match s with
    | c :: t =>
      rw [pyReplace_cons, if_neg (by simpa using hk 0 (Nat.succ_pos m))]
      rw [List.take_succ_cons, List.drop_succ_cons, List.cons_append]
      rw [ih t (by simpa using hm) (fun k hk' => by simpa using hk (k + 1) (by omega))]

theorem survive_replace (p₀ : Char) (ps B : PyStr)
    (hB : B ≠ [])
    (hne : p₀ :: ps ≠ B)
    (hlen : (p₀ :: ps).length = B.length)
    (hov₁ : ∀ j, j < (p₀ :: ps).length → 0 < j → ¬ ((p₀ :: ps).drop j <+: B))
    (hov₂ : ∀ k, k < B.length → 0 < k → ¬ (B.drop k <+: p₀ :: ps)) :
    ∀ (n : Nat) (s : PyStr), s.length ≤ n → B <:+: s → B <:+: pyReplace p₀ ps [] s := by
  intro n
  induction n with
  | zero =>
    intro s hs hinf
    have : s = [] := List.length_eq_zero.mp (Nat.le_zero.mp hs)
    subst this
    exact absurd (eq_nil_of_inf hinf) hB
  | succ n ih =>
    intro s hs hinf
    match s with
    | [] => exact absurd (eq_nil_of_inf hinf) hB
    | c :: t =>
      rw [pyReplace_cons]
      by_cases hpre : (p₀ :: ps) <+: (c :: t)
      · rw [if_pos hpre, List.nil_append]
        obtain ⟨j, hj⟩ := inf_drop_iff.mp hinf
        have hjge : (p₀ :: ps).length ≤ j := by
          by_contra hjl
          push_neg at hjl
          rcases Nat.eq_zero_or_pos j with hj0 | hjpos
          · subst hj0
            simp only [List.drop_zero] at hj
            have hA : p₀ :: ps = (c :: t).take (p₀ :: ps).length :=
              List.prefix_iff_eq_take.mp hpre
            have hBt : B = (c :: t).take B.length := List.prefix_iff_eq_take.mp hj
            rw [← hlen] at hBt
            exact hne (hA.trans hBt.symm)
          · obtain ⟨r, hr⟩ := hpre
            have hdrj : (c :: t).drop j = (p₀ :: ps).drop j ++ r := by
              rw [← hr, List.drop_append_of_le_length (le_of_lt hjl)]
            rw [hdrj] at hj
            have hx : (p₀ :: ps).drop j <+: B :=
              pref_of_pref_append hj (by simp only [List.length_drop]; omega)
            exact hov₁ j hjl hjpos hx
        have hj' : B <+: ((c :: t).drop (p₀ :: ps).length).drop (j - (p₀ :: ps).length) := by
          rw [List.drop_drop]
          rwa [Nat.add_sub_cancel' hjge]
        have hlent : ((c :: t).drop (p₀ :: ps).length).length ≤ n := by
          simp only [List.length_drop, List.length_cons] at hs ⊢
          omega
        have hrec := ih _ hlent (inf_drop_iff.mpr ⟨_, hj'⟩)
        have hsame : (c :: t).drop (p₀ :: ps).length = t.drop ps.length := by simp
        rwa [hsame] at hrec
      · rw [if_neg hpre]
        rcases inf_cons_split hinf with hBpre | hBt
        · match B, hB with
          | b :: B', _ =>
            obtain ⟨w, hw⟩ := hBpre
            simp only [List.cons_append, List.cons.injEq] at hw
            obtain ⟨hbc, htw⟩ := hw
            have hnoA : ∀ k, k < B'.length → ¬ (p₀ :: ps) <+: t.drop k := by
              intro k hkB hA
              have hdrk : t.drop k = B'.drop k ++ w := by
                rw [← htw, List.drop_append_of_le_length (le_of_lt hkB)]
              rw [hdrk] at hA
              have hx : B'.drop k <+: p₀ :: ps :=
                pref_of_pref_append hA
                  (by simp only [List.length_drop, List.length_cons] at hlen ⊢; omega)
              have hx' : (b :: B').drop (k + 1) <+: p₀ :: ps := by simpa using hx
              exact hov₂ (k + 1) (by simp only [List.length_cons]; omega)
                (Nat.succ_pos k) hx'
            have hlB' : B'.length ≤ t.length := by
              rw [← htw]; simp
            rw [pyReplace_skip p₀ ps B'.length t hlB' hnoA]
            have htake : t.take B'.length = B' := by
              rw [← htw, List.take_left]
            rw [htake]
            exact pref_inf ⟨pyReplace p₀ ps [] (t.drop B'.length), by simp [hbc]⟩
        · have hlt : t.length ≤ n := by
            simp only [List.length_cons] at hs; omega
          exact inf_cons_ext c (ih _ hlt hBt)

theorem survive_dropWhile {b : Char} {B' : PyStr} (hb : isPySpace b = false) :
    ∀ {s : PyStr}, (b :: B') <:+: s → (b :: B') <:+: s.dropWhile isPySpace := by
  intro s
  induction s with
  | nil => intro h; exact absurd (eq_nil_of_inf h) (by simp)
  | cons c t ih =>
    intro h
    rcases inf_cons_split h with hp | ht
    · have hbc : b = c := by
        obtain ⟨w, hw⟩ := hp
        exact (List.cons.injEq _ _ _ _ ▸ hw).1
      rw [List.dropWhile_cons, if_neg (by rw [← hbc, hb]; simp)]
      exact h
    · by_cases hc : isPySpace c = true
      · rw [List.dropWhile_cons, if_pos (by simp [hc])]
        exact ih ht
      · rw [List.dropWhile_cons, if_neg (by simpa using hc)]
        exact inf_cons_ext c ht

theorem survive_strip {B s : PyStr}
    (hhead : ∃ b B', B = b :: B' ∧ isPySpace b = false)
    (hlast : ∃ b B', B.reverse = b :: B' ∧ isPySpace b = false)
    (h : B <:+: s) : B <:+: pyStrip s := by
  obtain ⟨b₁, B₁, hB₁, hb₁⟩ := hhead
  obtain ⟨b₂, B₂, hB₂, hb₂⟩ := hlast
  have s₁ : B <:+: s.dropWhile isPySpace := by
    rw [hB₁] at h ⊢
    exact survive_dropWhile hb₁ h
  have s₂ : B.reverse <:+: (s.dropWhile isPySpace).reverse := inf_rev s₁
  have s₃ : B.reverse <:+: ((s.dropWhile isPySpace).reverse).dropWhile isPySpace := by
    rw [hB₂] at s₂ ⊢
    exact survive_dropWhile hb₂ s₂
  have s₄ := inf_rev s₃
  rwa [List.reverse_reverse] at s₄

/- ==================================================================
   Karma store lemmas
   ================================================================== -/

theorem alookup_aset_self {β : Type*} (db : List (String × β)) (k : String) (v : β) :
    alookup (aset db k v) k = some v := by
  induction db with
  | nil => simp [aset, alookup]
  | cons p t ih =>
    obtain ⟨k', v'⟩ := p
    by_cases h : k' = k
    · simp [aset, alookup, h]
    · simp [aset, alookup, h, ih]

theorem get_karma_update (db : KarmaDB) (uid : String) (c : ℤ) (un : Option String) :
    get_karma (update_karma db uid c un) uid = get_karma db uid + c := by
  simp only [get_karma, update_karma, get_karma_info, alookup_aset_self]

theorem alookup_aset_other {β : Type*} (db : List (String × β)) (k : String) (v : β)
    (w : String) (h : w ≠ k) : alookup (aset db k v) w = alookup db w := by
  induction db with
  | nil =>
    simp only [aset, alookup]
    rw [if_neg (fun he => h he.symm)]
  | cons p t ih =>
    obtain ⟨k', v'⟩ := p
    by_cases hk : k' = k
    · subst hk
      simp only [aset, if_pos rfl, alookup]
      rw [if_neg (fun he => h he.symm), if_neg (fun he => h he.symm)]
    · simp only [aset, if_neg hk, alookup]
      by_cases hw : k' = w
      · rw [if_pos hw, if_pos hw]
      · rw [if_neg hw, if_neg hw, ih]

theorem get_karma_update_other (db : KarmaDB) (uid : String) (c : ℤ) (un : Option String)
    (v : String) (hv : v ≠ uid) :
    get_karma (update_karma db uid c un) v = get_karma db v := by
  simp only [get_karma, update_karma, get_karma_info, alookup_aset_other _ _ _ _ hv]

/- ==================================================================
   C4 — karma markers adjust the speaker's score and are stripped
   ================================================================== -/

/-- C4 counterexample: the claim states that every reply containing
`{karma-}` decreases the speaker's score by exactly 1, but for a reply
containing both markers the `if/elif` chain takes the `{karma+}` branch:
the score goes from 0 to 1 (not to −1) and the displayed text still holds
the `{karma-}` token. -/
theorem c4_counterexample :
    containsSub "{karma-} {karma+}".data karmaMinusTok = true ∧
    get_karma ([] : KarmaDB) "u" = 0 ∧
    get_karma (process_karma_markers "{karma-} {karma+}".data [] "u" none).2 "u" = 1 ∧
    (process_karma_markers "{karma-} {karma+}".data [] "u" none).1 = "{karma-}".data ∧
    (1 : ℤ) ≠ 0 - 1 := by
  decide

/-- C4 (amended): for every raw reply, a reply containing `{karma+}` gives
the speaker exactly +1 and the token is removed (by `str.replace`, then
stripped); a reply containing `{karma-}` but NOT `{karma+}` gives exactly
−1 with the token removed; a reply containing neither marker leaves both
text and score untouched; the adjustment hits only the speaker — every
other user's score is unchanged; concretely, reply "Nice! {karma+}"
displays "Nice!" with score 0 → 1, and reply "Rude. {karma-}" displays
"Rude." with score 0 → −1. -/
theorem c4_theorem (reply : PyStr) (db : KarmaDB) (uid : String) (un : Option String) :
    (containsSub reply karmaPlusTok = true →
      process_karma_markers reply db uid un
        = (pyStrip (pyReplaceTok reply karmaPlusTok []), update_karma db uid 1 un) ∧
      get_karma (process_karma_markers reply db uid un).2 uid = get_karma db uid + 1) ∧
    (containsSub reply karmaPlusTok = false → containsSub reply karmaMinusTok = true →
      process_karma_markers reply db uid un
        = (pyStrip (pyReplaceTok reply karmaMinusTok []), update_karma db uid (-1) un) ∧
      get_karma (process_karma_markers reply db uid un).2 uid = get_karma db uid - 1) ∧
    (containsSub reply karmaPlusTok = false → containsSub reply karmaMinusTok = false →
      process_karma_markers reply db uid un = (reply, db)) ∧
    (∀ v, v ≠ uid →
      get_karma (process_karma_markers reply db uid un).2 v = get_karma db v) ∧
    (process_karma_markers "Nice! {karma+}".data [] "u" (some "alice")).1 = "Nice!".data ∧
    get_karma (process_karma_markers "Nice! {karma+}".data [] "u" (some "alice")).2 "u" = 1 ∧
    (process_karma_markers "Rude. {karma-}".data [] "u" (some "bob")).1 = "Rude.".data ∧
    get_karma (process_karma_markers "Rude. {karma-}".data [] "u" (some "bob")).2 "u"
      = -1 := by
  refine ⟨fun h1 => ⟨?_, ?_⟩, fun h1 h2 => ⟨?_, ?_⟩, fun h1 h2 => ?_, fun v hv => ?_,
    by decide, by decide, by decide, by decide⟩
  · simp [process_karma_markers, h1]
  · simp [process_karma_markers, h1, get_karma_update]
  · simp [process_karma_markers, h1, h2]
  · simp only [process_karma_markers, h1, h2, Bool.false_eq_true, if_false, if_true,
      get_karma_update]
    omega
  · simp [process_karma_markers, h1, h2]
  · by_cases h1 : containsSub reply karmaPlusTok = true
    · simp [process_karma_markers, h1, get_karma_update_other _ _ _ _ _ hv]
    · by_cases h2 : containsSub reply karmaMinusTok = true
      · simp [process_karma_markers, h1, h2, get_karma_update_other _ _ _ _ _ hv]
      · simp [process_karma_markers, h1, h2]

/-- C4 witness: the amended `{karma-}`-only case at the spec's own example
"Rude. {karma-}", and the speaker-only clause at a different user. -/
theorem c4_theorem_witness :
    containsSub "Rude. {karma-}".data karmaPlusTok = false ∧
    containsSub "Rude. {karma-}".data karmaMinusTok = true ∧
    (process_karma_markers "Rude. {karma-}".data [] "u" none
        = (pyStrip (pyReplaceTok "Rude. {karma-}".data karmaMinusTok []),
          update_karma [] "u" (-1) none) ∧
      get_karma (process_karma_markers "Rude. {karma-}".data [] "u" none).2 "u"
        = get_karma ([] : KarmaDB) "u" - 1) ∧
    get_karma (process_karma_markers "Rude. {karma-}".data [] "u" none).2 "w"
      = get_karma ([] : KarmaDB) "w" :=
  ⟨by decide, by decide,
    ( c4_theorem "Rude. {karma-}".data [] "u" none).2.1 (by decide) (by decide),
    ( c4_theorem "Rude. {karma-}".data [] "u" none).2.2.2.1 "w" (by decide)⟩

/- ==================================================================
   C10 — with both markers present, {karma+} wins
   ================================================================== -/

/-- C10: for every raw reply containing both `{karma+}` and `{karma-}`, the
karma scan applies exactly one adjustment of +1 (never −1, never a net 0),
the displayed text is the reply with only the `{karma+}` token removed,
and the literal `{karma-}` token still occurs in that displayed text. -/
theorem c10_theorem (reply : PyStr) (db : KarmaDB) (uid : String) (un : Option String)
    (hp : containsSub reply karmaPlusTok = true)
    (hm : containsSub reply karmaMinusTok = true) :
    (process_karma_markers reply db uid un).1 = pyStrip (pyReplaceTok reply karmaPlusTok []) ∧
    get_karma (process_karma_markers reply db uid un).2 uid = get_karma db uid + 1 ∧
    containsSub (process_karma_markers reply db uid un).1 karmaMinusTok = true := by
  refine ⟨by simp [process_karma_markers, hp],
    by simp [process_karma_markers, hp, get_karma_update], ?_⟩
  have h1 : karmaMinusTok <:+: reply := containsSub_iff.mp hm
  have h2 : karmaMinusTok <:+: pyReplace '{' "karma+\x7d".data [] reply :=
    survive_replace '{' "karma+\x7d".data karmaMinusTok (by decide) (by decide) (by decide)
      (by decide) (by decide) reply.length reply (le_refl _) h1
  have h3 : karmaMinusTok <:+: pyStrip (pyReplace '{' "karma+\x7d".data [] reply) :=
    survive_strip ⟨'{', "karma-\x7d".data, by decide, by decide⟩
      ⟨'}', "-amrak\x7b".data, by decide, by decide⟩ h2
  have heq : pyReplaceTok reply karmaPlusTok [] = pyReplace '{' "karma+\x7d".data [] reply := rfl
  simp only [process_karma_markers, hp, if_true]
  rw [containsSub_iff, heq]
  exact h3

/-- C10 witness: both markers in one concrete reply. -/
theorem c10_theorem_witness :
    containsSub "bah {karma+} no {karma-}".data karmaPlusTok = true ∧
    containsSub "bah {karma+} no {karma-}".data karmaMinusTok = true ∧
    ((process_karma_markers "bah {karma+} no {karma-}".data [] "u" none).1
        = pyStrip (pyReplaceTok "bah {karma+} no {karma-}".data karmaPlusTok []) ∧
      get_karma (process_karma_markers "bah {karma+} no {karma-}".data [] "u" none).2 "u"
        = get_karma ([] : KarmaDB) "u" + 1 ∧
      containsSub (process_karma_markers "bah {karma+} no {karma-}".data [] "u" none).1
        karmaMinusTok = true) :=
  ⟨by decide, by decide,
    c10_theorem "bah {karma+} no {karma-}".data [] "u" none (by decide) (by decide)⟩

/- ==================================================================
   C1 — retrieval ordering (recency vs similarity)
   ================================================================== -/

/-- C1 counterexample: the claim asserts that BOTH retrieve functions order
accepted matches by timestamp descending; `Multimodal.retrieve_context`
renders them in the backend-returned (similarity) order instead.  Two rows
both under the threshold, returned closest-first, with the older one
closer: the multimodal rendering lists the older ("A", ts 1) before the
newer ("B", ts 2). -/
theorem c1_counterexample :
    (QRow.mk "A" 0 1).dist < THRESHOLD ∧
    (QRow.mk "B" halfQ 2).dist < THRESHOLD ∧
    (QRow.mk "A" 0 1).ts < (QRow.mk "B" halfQ 2).ts ∧
    multimodal_found THRESHOLD [QRow.mk "A" 0 1, QRow.mk "B" halfQ 2]
      = [QRow.mk "A" 0 1, QRow.mk "B" halfQ 2] ∧
    ¬ List.Pairwise (fun a b : QRow => b.ts ≤ a.ts)
        (multimodal_found THRESHOLD [QRow.mk "A" 0 1, QRow.mk "B" halfQ 2]) ∧
    multimodal_render THRESHOLD [QRow.mk "A" 0 1, QRow.mk "B" halfQ 2]
      = "NuAnantachai remembers about you:\n- A\n- B\n\n" := by
  decide

/-- C1 (amended): `MemoryEngine.retrieve_context` renders the accepted
matches (a permutation of the under-threshold candidates) sorted by
timestamp descending, for every query result; `Multimodal.retrieve_context`
renders the accepted matches in the order the vector store returned them,
with no recency sort. -/
theorem c1_theorem (T : ℚ) (rows : List QRow) :
    List.Pairwise (fun a b : QRow => b.ts ≤ a.ts) (engine_found T rows) ∧
    (engine_found T rows).Perm (accepted_memories T rows) ∧
    multimodal_found T rows = accepted_memories T rows := by
  refine ⟨?_, List.mergeSort_perm _ _, rfl⟩
  have htrans : ∀ a b c : QRow, decide (b.ts ≤ a.ts) = true → decide (c.ts ≤ b.ts) = true →
      decide (c.ts ≤ a.ts) = true := by
    intro a b c h1 h2
    simp only [decide_eq_true_eq] at h1 h2 ⊢
    exact le_trans h2 h1
  have htotal : ∀ a b : QRow, (decide (b.ts ≤ a.ts) || decide (a.ts ≤ b.ts)) = true := by
    intro a b
    simp only [Bool.or_eq_true, decide_eq_true_eq]
    exact le_total _ _
  have h := List.sorted_mergeSort htrans htotal (accepted_memories T rows)
  exact h.imp (fun hab => of_decide_eq_true hab)

/- ==================================================================
   C2 — strict threshold exclusion
   ================================================================== -/

/-- C2: a candidate whose distance is ≥ the threshold never appears among
the retrieved memories of either retrieve function (acceptance is strict),
and with the threshold set to 0 both rendered outputs are empty unless some
candidate has distance strictly below 0. -/
theorem c2_theorem (fmt : ℚ → String) (T : ℚ) (rows : List QRow) (r : QRow) :
    (r ∈ multimodal_found T rows → r.dist < T) ∧
    (r ∈ engine_found T rows → r.dist < T) ∧
    ((∀ x ∈ rows, 0 ≤ x.dist) →
      multimodal_render 0 rows = "" ∧ engine_render fmt 0 rows = "") := by
  refine ⟨fun h => ?_, fun h => ?_, fun h => ?_⟩
  · exact of_decide_eq_true (List.mem_filter.mp h).2
  · have hmem : r ∈ accepted_memories T rows :=
      (List.mergeSort_perm (accepted_memories T rows) _).mem_iff.mp h
    exact of_decide_eq_true (List.mem_filter.mp hmem).2
  · have hemp : accepted_memories 0 rows = [] := by
      rw [accepted_memories, List.filter_eq_nil_iff]
      intro a ha
      simpa using not_lt.mpr (h a ha)
    have hemp' : multimodal_found 0 rows = [] := hemp
    have hengine : engine_found 0 rows = [] := by
      rw [engine_found, hemp, List.mergeSort_nil]
    constructor
    · simp [multimodal_render, hemp']
    · simp [engine_render, hengine]

/-- C2 witness: a concrete row under threshold 1 appears in both found
lists, and rows with nonnegative distances render to the empty string at
threshold 0. -/
theorem c2_theorem_witness :
    QRow.mk "A" 0 1 ∈ multimodal_found THRESHOLD [QRow.mk "A" 0 1, QRow.mk "B" 2 2] ∧
    QRow.mk "A" 0 1 ∈ engine_found THRESHOLD [QRow.mk "A" 0 1, QRow.mk "B" 2 2] ∧
    (∀ x ∈ [QRow.mk "A" 0 1, QRow.mk "B" 2 2], 0 ≤ x.dist) ∧
    ((QRow.mk "A" 0 1).dist < THRESHOLD ∧
      (QRow.mk "A" 0 1).dist < THRESHOLD ∧
      (multimodal_render 0 [QRow.mk "A" 0 1, QRow.mk "B" 2 2] = "" ∧
        engine_render (fun _ => "d") 0 [QRow.mk "A" 0 1, QRow.mk "B" 2 2] = "")) := by
  have hmm : QRow.mk "A" 0 1 ∈ multimodal_found THRESHOLD [QRow.mk "A" 0 1, QRow.mk "B" 2 2] := by
    decide
  have hee : QRow.mk "A" 0 1 ∈ engine_found THRESHOLD [QRow.mk "A" 0 1, QRow.mk "B" 2 2] :=
    (List.mergeSort_perm (accepted_memories THRESHOLD [QRow.mk "A" 0 1, QRow.mk "B" 2 2])
      _).mem_iff.mpr (by decide)
  have hnn : ∀ x ∈ [QRow.mk "A" 0 1, QRow.mk "B" 2 2], 0 ≤ x.dist := by decide
  have hc := c2_theorem (fun _ => "d") THRESHOLD [QRow.mk "A" 0 1, QRow.mk "B" 2 2]
    (QRow.mk "A" 0 1)
  exact ⟨hmm, hee, hnn, hc.1 hmm, hc.2.1 hee, hc.2.2 hnn⟩

/- ==================================================================
   C8 — extraction parsing
   ================================================================== -/

theorem splitOnce_isSome {p₀ : Char} {ps : PyStr} :
    ∀ {part : PyStr}, (p₀ :: ps) <:+: part → (pySplitOnce p₀ ps part).isSome = true := by
  intro part
  induction part with
  | nil => intro h; exact absurd (eq_nil_of_inf h) (by simp)
  | cons c t ih =>
    intro h
    by_cases hp : (p₀ :: ps) <+: (c :: t)
    · simp [pySplitOnce, hp]
    · rcases inf_cons_split h with hpre | ht
      · exact absurd hpre hp
      · obtain ⟨q, hq⟩ := Option.isSome_iff_exists.mp (ih ht)
        simp [pySplitOnce, hp, hq]

theorem parse_pair_length (part : PyStr) :
    (parse_pair part).length = if containsSub part ansTok then 1 else 0 := by
  by_cases h : containsSub part ansTok = true
  · have hs : (pySplitOnceTok part ansTok).isSome = true := by
      have hinf : ansTok <:+: part := containsSub_iff.mp h
      exact splitOnce_isSome hinf
    obtain ⟨⟨q, a⟩, hqa⟩ := Option.isSome_iff_exists.mp hs
    simp [parse_pair, h, hqa]
  · simp [parse_pair, h]

/-- C8 counterexample: the claim states that a pair whose qa/answer segment
is empty after stripping is dropped; the code keeps it.  The raw reply
"{qa}{answer}" yields the retained empty pair, not an empty batch. -/
theorem c8_counterexample :
    parse_memories "{qa}{answer}" = [("", "")] ∧
    ([("", "")] : List (String × String)) ≠ [] := by
  constructor
  · decide
  · decide

/-- C8 (amended): the reply is split on "{qa}"; every segment lacking
"{answer}" is discarded and every segment containing it yields exactly one
retained pair — malformed pairs are NOT dropped: a segment with extra
answer markers keeps them inside the answer half (split once), and a
segment that is empty after stripping yields a pair of empty strings; no
segment errors the batch (the parser is total). -/
theorem c8_theorem (text : String) :
    (parse_memories text).length
      = ((pySplitTok text.data qaTok).filter (fun part => containsSub part ansTok)).length ∧
    parse_memories "{qa} x {answer}{answer} y" = [("x", "{answer} y")] ∧
    parse_memories "{qa}{answer}" = [("", "")] := by
  refine ⟨?_, by decide, by decide⟩
  by_cases h : text = ""
  · subst h
    decide
  · rw [parse_memories, if_neg h]
    generalize pySplitTok text.data qaTok = l
    induction l with
    | nil => rfl
    | cons x xs ih =>
      simp only [List.flatMap_cons, List.length_append, ih, List.filter_cons]
      rw [parse_pair_length]
      by_cases hx : containsSub x ansTok = true
      · simp [hx]
        omega
      · simp [hx]

/- ==================================================================
   C3 — idempotent memory insertion, unique ids
   ================================================================== -/

theorem has_step_mono (md5 : String → String) (embed : String → List ℚ) (ts : ℚ)
    (uid : String) (c : Collection) (mem : String × String) (i : String)
    (h : collection_has c i = true) :
    collection_has (store_step md5 embed ts uid c mem) i = true := by
  unfold store_step
  split
  · exact h
  · split
    · exact h
    · simp only [collection_has, List.any_append] at h ⊢
      simp [h]

theorem has_foldl_mono (md5 : String → String) (embed : String → List ℚ) (ts : ℚ)
    (uid : String) (i : String) :
    ∀ (l : List (String × String)) (c : Collection), collection_has c i = true →
      collection_has (l.foldl (store_step md5 embed ts uid) c) i = true := by
  intro l
  induction l with
  | nil => intro c h; exact h
  | cons x xs ih =>
    intro c h
    exact ih _ (has_step_mono md5 embed ts uid c x i h)

theorem mem_step_or (md5 : String → String) (embed : String → List ℚ) (ts : ℚ)
    (uid : String) :
    ∀ (l : List (String × String)) (c : Collection), ∀ mem ∈ l,
      collection_has (l.foldl (store_step md5 embed ts uid) c) (mem_id md5 uid mem) = true
        ∨ embed (mem_full_text mem) = [] := by
  intro l
  induction l with
  | nil => intro c mem h; exact absurd h (List.not_mem_nil mem)
  | cons x xs ih =>
    intro c mem hmem
    rcases List.mem_cons.mp hmem with rfl | h
    · by_cases he : embed (mem_full_text mem) = []
      · exact Or.inr he
      · left
        rw [List.foldl_cons]
        apply has_foldl_mono
        by_cases hh : collection_has c (mem_id md5 uid mem) = true
        · exact has_step_mono md5 embed ts uid c mem _ hh
        · unfold store_step
          rw [if_neg hh, if_neg he]
          simp [collection_has, List.any_append]
    · exact ih _ mem h

theorem step_fix (md5 : String → String) (embed : String → List ℚ) (ts : ℚ)
    (uid : String) (c : Collection) (mem : String × String)
    (h : collection_has c (mem_id md5 uid mem) = true ∨ embed (mem_full_text mem) = []) :
    store_step md5 embed ts uid c mem = c := by
  unfold store_step
  rcases h with hh | he
  · rw [if_pos hh]
  · by_cases hh : collection_has c (mem_id md5 uid mem) = true
    · rw [if_pos hh]
    · rw [if_neg hh, if_pos he]

theorem foldl_fix (md5 : String → String) (embed : String → List ℚ) (ts : ℚ)
    (uid : String) (c : Collection) :
    ∀ (l : List (String × String)),
      (∀ mem ∈ l, store_step md5 embed ts uid c mem = c) →
      l.foldl (store_step md5 embed ts uid) c = c := by
  intro l
  induction l with
  | nil => intro _; rfl
  | cons x xs ih =>
    intro h
    rw [List.foldl_cons, h x (List.mem_cons_self x xs)]
    exact ih (fun mem hm => h mem (List.mem_cons_of_mem x hm))

theorem nodup_step (md5 : String → String) (embed : String → List ℚ) (ts : ℚ)
    (uid : String) (c : Collection) (mem : String × String)
    (h : (c.map MemRecord.id).Nodup) :
    ((store_step md5 embed ts uid c mem).map MemRecord.id).Nodup := by
  unfold store_step
  split
  · exact h
  · split
    · exact h
    · rename_i hh _
      simp only [List.map_append, List.map_cons, List.map_nil]
      rw [List.nodup_append]
      refine ⟨h, List.nodup_singleton _, ?_⟩
      intro x hx hxa
      rw [List.mem_singleton] at hxa
      subst hxa
      obtain ⟨r, hr, hid⟩ := List.mem_map.mp hx
      exact hh (by simp only [collection_has, List.any_eq_true]; exact ⟨r, hr, by simp [hid]⟩)

theorem nodup_foldl (md5 : String → String) (embed : String → List ℚ) (ts : ℚ)
    (uid : String) :
    ∀ (l : List (String × String)) (c : Collection), (c.map MemRecord.id).Nodup →
      ((l.foldl (store_step md5 embed ts uid) c).map MemRecord.id).Nodup := by
  intro l
  induction l with
  | nil => intro c h; exact h
  | cons x xs ih =>
    intro c h
    exact ih _ (nodup_step md5 embed ts uid c x h)

/-- C3: memory insertion is idempotent — with a deterministic extraction
result, running `store_memory` a second time (even at a different
timestamp) re-derives the same hash ids, finds them in the collection, and
changes nothing; and a collection with pairwise-distinct ids keeps
pairwise-distinct ids across a store, so no two stored MemoryFacts ever
share an id. -/
theorem c3_theorem (md5 : String → String) (embed : String → List ℚ) (ts ts' : ℚ)
    (c : Collection) (uid userText extracted : String) :
    store_memory md5 embed ts' (store_memory md5 embed ts c uid userText extracted)
        uid userText extracted
      = store_memory md5 embed ts c uid userText extracted ∧
    ((c.map MemRecord.id).Nodup →
      ((store_memory md5 embed ts c uid userText extracted).map MemRecord.id).Nodup) := by
  constructor
  · unfold store_memory
    by_cases h1 : (pyStrip userText.data).length < 3
    · simp [h1]
    · by_cases h2 : extracted = "" ∨ containsSub extracted.data "NO_MEMORY".data = true
      · simp [h1, h2]
      · simp only [h1, if_false, h2]
        apply foldl_fix
        intro mem hmem
        exact step_fix md5 embed ts' uid _ mem
          (mem_step_or md5 embed ts uid _ c mem hmem)
  · intro hnodup
    unfold store_memory
    split
    · exact hnodup
    · split
      · exact hnodup
      · exact nodup_foldl md5 embed ts uid _ c hnodup

/-- C3 witness: a concrete double store with the identity hash and a
constant embedding on an initially empty collection. -/
theorem c3_theorem_witness :
    store_memory (fun s => s) (fun _ => [1]) 7
        (store_memory (fun s => s) (fun _ => [1]) 3 [] "u1" "tell me" "{qa}q{answer}a")
        "u1" "tell me" "{qa}q{answer}a"
      = store_memory (fun s => s) (fun _ => [1]) 3 [] "u1" "tell me" "{qa}q{answer}a" ∧
    ((([] : Collection).map MemRecord.id).Nodup ∧
      ((store_memory (fun s => s) (fun _ => [1]) 3 [] "u1" "tell me"
        "{qa}q{answer}a").map MemRecord.id).Nodup) :=
  ⟨(c3_theorem (fun s => s) (fun _ => [1]) 3 7 [] "u1" "tell me" "{qa}q{answer}a").1,
    by decide,
    (c3_theorem (fun s => s) (fun _ => [1]) 3 7 [] "u1" "tell me" "{qa}q{answer}a").2
      (by decide)⟩

/- ==================================================================
   C6 — bounded FIFO history and image ring
   ================================================================== -/

theorem add_messages_eq {α : Type*} (N : Nat) :
    ∀ (msgs init : List α), init.length ≤ N →
      add_messages N init msgs = (init ++ msgs).drop (init.length + msgs.length - N) := by
  intro msgs
  induction msgs with
  | nil =>
    intro init h
    simp only [add_messages, List.foldl_nil, List.append_nil, List.length_nil, Nat.add_zero]
    rw [Nat.sub_eq_zero_of_le h, List.drop_zero]
  | cons m rest ih =>
    intro init h
    simp only [add_messages, List.foldl_cons] at ih ⊢
    rcases Nat.lt_or_ge init.length N with hlt | hge
    · have hd : deque_append N init m = init ++ [m] := by
        unfold deque_append
        rw [if_neg (by simp only [List.length_append, List.length_cons, List.length_nil]; omega)]
      rw [hd, ih (init ++ [m])
        (by simp only [List.length_append, List.length_cons, List.length_nil]; omega)]
      have e1 : init ++ [m] ++ rest = init ++ m :: rest := by simp
      rw [e1]
      congr 1
      simp only [List.length_append, List.length_cons, List.length_nil]
      omega
    · have heq : init.length = N := le_antisymm h hge
      have hd : deque_append N init m = (init ++ [m]).drop 1 := by
        unfold deque_append
        rw [if_pos (by simp only [List.length_append, List.length_cons, List.length_nil]; omega)]
        congr 1
        simp only [List.length_append, List.length_cons, List.length_nil]
        omega
      rw [hd, ih _ (by simp only [List.length_drop, List.length_append, List.length_cons,
        List.length_nil]; omega)]
      have h1 : (init ++ [m]).drop 1 ++ rest = ((init ++ [m]) ++ rest).drop 1 :=
        (List.drop_append_of_le_length (by
          simp only [List.length_append, List.length_cons, List.length_nil]; omega)).symm
      rw [h1, List.drop_drop]
      have e1 : init ++ [m] ++ rest = init ++ m :: rest := by simp
      rw [e1]
      congr 1
      simp only [List.length_drop, List.length_append, List.length_cons, List.length_nil]
      omega

/-- C6: appending N+5 messages to an empty context bounded at N leaves
exactly the last N messages in order (the first 5 are evicted oldest-first);
the recent-image ring never exceeds its configured maximum of 3 after an
update, and the update appends at the newest end and evicts only from the
oldest end — the result is exactly the last 3 entries of `ring ++ [p]` —
so a full ring [a, b, c] updated with d becomes [b, c, d]. -/
theorem c6_theorem {α : Type*} (N : Nat) (msgs : List α) (h : msgs.length = N + 5) :
    add_messages N [] msgs = msgs.drop 5 ∧
    (∀ (ring : List String) (p : String),
      (update_last_images CONTEXT_LENGTH_IMAGE ring p).length ≤ CONTEXT_LENGTH_IMAGE) ∧
    (∀ (ring : List String) (p : String),
      update_last_images CONTEXT_LENGTH_IMAGE ring p
        = (ring ++ [p]).drop ((ring ++ [p]).length - CONTEXT_LENGTH_IMAGE)) ∧
    update_last_images CONTEXT_LENGTH_IMAGE ["a", "b", "c"] "d" = ["b", "c", "d"] := by
  refine ⟨?_, ?_, ?_, by decide⟩
  · rw [add_messages_eq N msgs [] (by simp)]
    simp only [List.nil_append, List.length_nil, Nat.zero_add, h]
    congr 1
    omega
  · intro ring p
    simp only [update_last_images, pyLastSlice, CONTEXT_LENGTH_IMAGE]
    split
    · rw [if_neg (by omega)]
      simp only [List.length_drop]
      omega
    · rename_i hle
      simp only [List.length_append, List.length_singleton] at hle ⊢
      omega
  · intro ring p
    simp only [update_last_images, pyLastSlice, CONTEXT_LENGTH_IMAGE]
    split
    · rw [if_neg (by omega)]
    · rename_i hle
      rw [Nat.sub_eq_zero_of_le (by
        simp only [List.length_append, List.length_singleton] at hle ⊢
        omega), List.drop_zero]

/-- C6 witness: seven messages into a context bounded at two leave the last
two; a full three-element ring stays at three and evicts its oldest entry. -/
theorem c6_theorem_witness :
    ([0, 1, 2, 3, 4, 5, 6] : List ℕ).length = 2 + 5 ∧
    add_messages 2 ([] : List ℕ) [0, 1, 2, 3, 4, 5, 6] = [5, 6] ∧
    (update_last_images CONTEXT_LENGTH_IMAGE ["a", "b", "c"] "d").length
      ≤ CONTEXT_LENGTH_IMAGE ∧
    update_last_images CONTEXT_LENGTH_IMAGE ["a", "b", "c"] "d"
      = (["a", "b", "c"] ++ ["d"]).drop
          ((["a", "b", "c"] ++ ["d"]).length - CONTEXT_LENGTH_IMAGE) ∧
    update_last_images CONTEXT_LENGTH_IMAGE ["a", "b", "c"] "d" = ["b", "c", "d"] :=
  ⟨by decide,
    (c6_theorem 2 ([0, 1, 2, 3, 4, 5, 6] : List ℕ) (by decide)).1.trans (by decide),
    (c6_theorem 2 ([0, 1, 2, 3, 4, 5, 6] : List ℕ) (by decide)).2.1 ["a", "b", "c"] "d",
    (c6_theorem 2 ([0, 1, 2, 3, 4, 5, 6] : List ℕ) (by decide)).2.2.1 ["a", "b", "c"] "d",
    (c6_theorem 2 ([0, 1, 2, 3, 4, 5, 6] : List ℕ) (by decide)).2.2.2⟩

/- ==================================================================
   C7 — persistence round-trip with legacy upgrades
   ================================================================== -/

theorem list_map_self {α : Type*} {f : α → α} :
    ∀ l : List α, (∀ a ∈ l, f a = a) → l.map f = l := by
  intro l
  induction l with
  | nil => intro _; rfl
  | cons x xs ih =>
    intro h
    rw [List.map_cons, h x (List.mem_cons_self x xs),
      ih (fun a ha => h a (List.mem_cons_of_mem x ha))]

theorem deque_init_eq {α : Type*} {N : Nat} {l : List α} (h : l.length ≤ N) :
    deque_init N l = l := by
  unfold deque_init
  rw [Nat.sub_eq_zero_of_le h, List.drop_zero]

theorem alookup_map_self {β : Type*} {γ : Type*} (f : String → γ) :
    ∀ (l : List (String × β)) (u : String), u ∈ l.map Prod.fst →
      alookup (l.map (fun p => (p.1, f p.1))) u = some (f u) := by
  intro l
  induction l with
  | nil => intro u h; simp at h
  | cons p t ih =>
    intro u h
    by_cases hp : p.1 = u
    · subst hp
      simp [alookup]
    · rw [List.map_cons]
      show (if p.1 = u then some (f p.1) else alookup (t.map fun p => (p.1, f p.1)) u)
          = some (f u)
      rw [if_neg hp]
      apply ih
      rcases List.mem_map.mp h with ⟨q, hq, hqu⟩
      rcases List.mem_cons.mp hq with rfl | hqt
      · exact absurd hqu hp
      · exact List.mem_map.mpr ⟨q, hqt, hqu⟩

/-- C7: saving a history store and loading it into a fresh instance
reproduces the message lists exactly and the same observable display name
and image ring for every context present before the save; a stored legacy
bare list loads as its messages with username "Unknown" and no image-ring
entry, and a stored dict without the image-ring field loads without failure,
keeping messages and username. -/
theorem c7_theorem {M : Type*} (s : HMState M)
    (hlen : ∀ p ∈ s.histories, (p.2).length ≤ HISTORY_MAXLEN) :
    (hmLoad (hmSave s)).histories = s.histories ∧
    (∀ u, u ∈ s.histories.map Prod.fst →
      (alookup (hmLoad (hmSave s)).usernames u).getD "Unknown"
          = (alookup s.usernames u).getD "Unknown" ∧
        (alookup (hmLoad (hmSave s)).lastImages u).getD []
          = (alookup s.lastImages u).getD []) ∧
    (∀ (u : String) (msgs : List M), msgs.length ≤ HISTORY_MAXLEN →
      hmLoad [(u, StoredEntry.legacy msgs)]
        = ⟨[(u, msgs)], [(u, "Unknown")], []⟩) ∧
    (∀ (u un : String) (msgs : List M), msgs.length ≤ HISTORY_MAXLEN →
      hmLoad [(u, StoredEntry.modern (some un) (some msgs) none)]
        = ⟨[(u, msgs)], [(u, un)], []⟩) := by
  refine ⟨?_, fun u hu => ⟨?_, ?_⟩, fun u msgs hm => ?_, fun u un msgs hm => ?_⟩
  · show (hmSave s).map _ = s.histories
    unfold hmSave
    rw [List.map_map]
    apply list_map_self
    intro p hp
    obtain ⟨w, msgs⟩ := p
    simp only [Function.comp_apply, entryMsgs, Option.getD_some]
    rw [deque_init_eq (hlen _ hp)]
  · have hmap : (hmLoad (hmSave s)).usernames
        = s.histories.map (fun p => (p.1, (alookup s.usernames p.1).getD "Unknown")) := by
      show (hmSave s).map _ = _
      unfold hmSave
      rw [List.map_map]
      rfl
    rw [hmap, alookup_map_self (fun u => (alookup s.usernames u).getD "Unknown") _ u hu]
    rfl
  · have hmap : (hmLoad (hmSave s)).lastImages
        = s.histories.map (fun p => (p.1, (alookup s.lastImages p.1).getD [])) := by
      show (hmSave s).filterMap _ = _
      unfold hmSave
      rw [List.filterMap_map]
      rw [List.filterMap_eq_map_iff_forall_eq_some.mpr ?_]
      intro p _
      rfl
    rw [hmap, alookup_map_self (fun u => (alookup s.lastImages u).getD []) _ u hu]
    rfl
  · unfold hmLoad
    simp only [List.map_cons, List.map_nil, List.filterMap_cons, entryMsgs, entryUsername,
      entryImages, List.filterMap_nil]
    rw [deque_init_eq hm]
    rfl
  · unfold hmLoad
    simp only [List.map_cons, List.map_nil, List.filterMap_cons, entryMsgs, entryUsername,
      entryImages, List.filterMap_nil, Option.getD_some]
    rw [deque_init_eq hm]
    rfl

/-- C7 witness: a one-context store with a cached name and image ring
round-trips, and both legacy shapes load as described. -/
theorem c7_theorem_witness :
    (∀ p ∈ (HMState.mk [("a", [1, 2])] [("a", "Alice")] [("a", ["p1"])] : HMState ℕ).histories,
      (p.2).length ≤ HISTORY_MAXLEN) ∧
    (hmLoad (hmSave
        (HMState.mk [("a", [1, 2])] [("a", "Alice")] [("a", ["p1"])] : HMState ℕ))).histories
      = [("a", [1, 2])] ∧
    hmLoad [("b", StoredEntry.legacy ([3] : List ℕ))]
      = ⟨[("b", [3])], [("b", "Unknown")], []⟩ := by
  have hlen : ∀ p ∈ (HMState.mk [("a", [1, 2])] [("a", "Alice")]
      [("a", ["p1"])] : HMState ℕ).histories, (p.2).length ≤ HISTORY_MAXLEN := by
    intro p hp
    simp only [List.mem_singleton] at hp
    subst hp
    decide
  have h := c7_theorem (HMState.mk [("a", [1, 2])] [("a", "Alice")] [("a", ["p1"])]) hlen
  exact ⟨hlen, h.1, h.2.2.1 "b" [3] (by decide)⟩

/- ==================================================================
   C5 — edit target selection
   ================================================================== -/

/-- C5 counterexample: with no uploaded image, an edit instruction without
cue words, and a two-entry ring, the claim requires the edit to target BOTH
ring entries newest first; the code hands the backend exactly one image —
the newest entry only. -/
theorem c5_counterexample :
    edit_targets none "add a hat".data ["p1", "p2"] (fun p => some ("IMG_" ++ p))
      = ["IMG_p2"] ∧
    (["IMG_p2"] : List String) ≠ ["IMG_p2", "IMG_p1"] := by
  constructor
  · decide
  · decide

/-- C5 (amended): the edit branch resolves at most ONE target image: the
truthily uploaded image of this request when present; else a single ring
path is chosen — the ring's FIRST (oldest-kept) entry when a cue word
(previous/first/old/earlier) occurs in the instruction and the ring has at
least two entries, else the ring's newest entry — and loaded from disk;
and whenever no truthy target resolves, the system note is appended to the
text and the `edit_image` backend is never consulted (the branch result
does not depend on it). -/
theorem c5_theorem (b64Input : Option String) (kw : PyStr) (lastPaths : List String)
    (disk : String → Option String) (txt : PyStr)
    (ei : String → PyStr → Option String) (savePath : String → String) :
    (edit_targets b64Input kw lastPaths disk).length ≤ 1 ∧
    (∀ b, b64Input = some b → b ≠ "" → edit_targets b64Input kw lastPaths disk = [b]) ∧
    (∀ p₁ p₂ b, optTruthy b64Input = false → lastPaths = [p₁, p₂] → has_cue kw = false →
      p₂ ≠ "" → disk p₂ = some b → b ≠ "" →
      edit_targets b64Input kw lastPaths disk = [b]) ∧
    (∀ p b, optTruthy b64Input = false → 2 ≤ lastPaths.length → has_cue kw = true →
      lastPaths.head? = some p → p ≠ "" → disk p = some b → b ≠ "" →
      edit_targets b64Input kw lastPaths disk = [b]) ∧
    (∀ p b, optTruthy b64Input = false → lastPaths ≠ [] →
      ¬(2 ≤ lastPaths.length ∧ has_cue kw = true) →
      lastPaths.getLast? = some p → p ≠ "" → disk p = some b → b ≠ "" →
      edit_targets b64Input kw lastPaths disk = [b]) ∧
    (edit_targets b64Input kw lastPaths disk = [] →
      edit_branch txt kw b64Input lastPaths disk ei savePath
          = (txt ++ noTargetNote, none, lastPaths) ∧
      ∀ ei', edit_branch txt kw b64Input lastPaths disk ei savePath
          = edit_branch txt kw b64Input lastPaths disk ei' savePath) := by
  refine ⟨?_, ?_, ?_, ?_, ?_, fun h => ⟨?_, ?_⟩⟩
  · unfold edit_targets
    cases select_edit_target b64Input kw lastPaths disk with
    | none => simp
    | some b =>
      by_cases hb : b = "" <;> simp [hb]
  · intro b hb hbne
    subst hb
    simp [edit_targets, select_edit_target, optTruthy, hbne]
  · intro p₁ p₂ b hup hlp hcue hp2 hdisk hbne
    subst hlp
    unfold edit_targets select_edit_target
    rw [if_neg (by simp [hup])]
    simp only [List.length_cons, List.length_nil, hcue, Bool.false_eq_true, and_false,
      if_false, ne_eq, reduceCtorEq, not_false_eq_true, if_true, List.getLast?_cons,
      List.getLast?_singleton]
    simp [hp2, hdisk, hbne]
  · intro p b hup hlen hcue hhead hp hdisk hbne
    unfold edit_targets select_edit_target
    rw [if_neg (by simp [hup])]
    rw [if_pos ⟨hlen, hcue⟩, hhead]
    simp [hp, hdisk, hbne]
  · intro p b hup hne hcond hlast hp hdisk hbne
    unfold edit_targets select_edit_target
    rw [if_neg (by simp [hup])]
    rw [if_neg hcond, if_pos hne, hlast]
    simp [hp, hdisk, hbne]
  · unfold edit_branch
    rw [h]
  · intro ei'
    unfold edit_branch
    rw [h]

/-- C5 witness: upload precedence, newest-only two-entry fallback, the
cue-word branch picking the ring's first entry, the newest entry of a
three-entry ring without cue words, and the no-target note with an empty
ring. -/
theorem c5_theorem_witness :
    edit_targets (some "B") "kw".data ["p"] (fun _ => none) = ["B"] ∧
    edit_targets none "add a hat".data ["p1", "p2"] (fun p => some ("IMG_" ++ p))
      = ["IMG_p2"] ∧
    edit_targets none "use the previous one".data ["p1", "p2"]
      (fun p => some ("IMG_" ++ p)) = ["IMG_p1"] ∧
    edit_targets none "add a hat".data ["a", "b", "c"] (fun p => some ("IMG_" ++ p))
      = ["IMG_c"] ∧
    (edit_targets none "kw".data [] (fun _ => none) = [] ∧
      edit_branch "t".data "kw".data none [] (fun _ => none) (fun _ _ => none)
          (fun _ => "s")
        = ("t".data ++ noTargetNote, none, []) ∧
      ∀ ei', edit_branch "t".data "kw".data none [] (fun _ => none) (fun _ _ => none)
          (fun _ => "s")
        = edit_branch "t".data "kw".data none [] (fun _ => none) ei' (fun _ => "s")) := by
  have h1 := (c5_theorem (some "B") "kw".data ["p"] (fun _ => none) "t".data
    (fun _ _ => none) (fun _ => "s")).2.1 "B" rfl (by decide)
  have h2 := (c5_theorem none "add a hat".data ["p1", "p2"]
    (fun p => some ("IMG_" ++ p)) "t".data (fun _ _ => none) (fun _ => "s")).2.2.1
    "p1" "p2" "IMG_p2" (by decide) rfl (by decide) (by decide) rfl (by decide)
  have h3 := (c5_theorem none "use the previous one".data ["p1", "p2"]
    (fun p => some ("IMG_" ++ p)) "t".data (fun _ _ => none) (fun _ => "s")).2.2.2.1
    "p1" "IMG_p1" (by decide) (by decide) (by decide) rfl (by decide) rfl (by decide)
  have h4 := (c5_theorem none "add a hat".data ["a", "b", "c"]
    (fun p => some ("IMG_" ++ p)) "t".data (fun _ _ => none) (fun _ => "s")).2.2.2.2.1
    "c" "IMG_c" (by decide) (by decide) (by decide) (by decide) (by decide) rfl (by decide)
  have hemp : edit_targets none "kw".data [] (fun _ => none) = [] := by decide
  have h5 := (c5_theorem none "kw".data [] (fun _ => none) "t".data
    (fun _ _ => none) (fun _ => "s")).2.2.2.2.2 hemp
  exact ⟨h1, h2, h3, h4, hemp, h5.1, h5.2⟩

/- ==================================================================
   C9 — the displayed text is never empty
   ================================================================== -/

theorem apply_fallback_ne (txt : PyStr) (img : Option String) :
    apply_fallback txt img ≠ [] := by
  unfold apply_fallback
  split
  · split <;> decide
  · assumption

/-- C9 counterexample: the claim requires "Done." when a non-image (karma)
action succeeded and the stripped text is empty; the code has no "Done."
branch — the reply "{karma+}" applies +1 and then displays "What?". -/
theorem c9_counterexample :
    get_karma (process_reply "{karma+}".data [] "u" none (fun _ => none)
      (fun _ _ => none) none [] (fun _ => none) (fun _ => "")).2.1 "u" = 1 ∧
    (process_reply "{karma+}".data [] "u" none (fun _ => none)
      (fun _ _ => none) none [] (fun _ => none) (fun _ => "")).1 = "What?".data ∧
    "What?".data ≠ "Done.".data := by
  refine ⟨by decide, by decide, by decide⟩

/-- C9 (amended): the final displayed text of the reply pipeline is never
empty: when the text is empty after all marker stripping, the final
fallback of generate_text substitutes "Here is your image." whenever a
truthy image was produced and "What?" otherwise (there is no separate
acknowledgment for karma-only actions); in particular an empty generative
reply displays "What?", and a reply that is nothing but a successful
`{gen}` request displays "Here is your image." with the image attached. -/
theorem c9_theorem (reply : PyStr) (db : KarmaDB) (uid : String) (un : Option String)
    (gi : PyStr → Option String) (ei : String → PyStr → Option String)
    (b64 : Option String) (lp : List String) (disk : String → Option String)
    (savePath : String → String) :
    (process_reply reply db uid un gi ei b64 lp disk savePath).1 ≠ [] ∧
    (reply = [] →
      (process_reply reply db uid un gi ei b64 lp disk savePath).1 = "What?".data) ∧
    (∀ (txt : PyStr) (img : Option String), txt = [] → optTruthy img = true →
      apply_fallback txt img = "Here is your image.".data) ∧
    (∀ (txt : PyStr) (img : Option String), txt = [] → optTruthy img = false →
      apply_fallback txt img = "What?".data) ∧
    (process_reply "{gen} a cat".data [] "u" none (fun _ => some "IMG")
      (fun _ _ => none) none [] (fun _ => none) (fun _ => "path")).1
      = "Here is your image.".data ∧
    (process_reply "{gen} a cat".data [] "u" none (fun _ => some "IMG")
      (fun _ _ => none) none [] (fun _ => none) (fun _ => "path")).2.2.1
      = some "IMG" := by
  refine ⟨?_, ?_, ?_, ?_, by decide, by decide⟩
  case refine_3 =>
    intro txt img h1 h2
    subst h1
    unfold apply_fallback
    rw [if_pos rfl, if_pos h2]
  case refine_4 =>
    intro txt img h1 h2
    subst h1
    unfold apply_fallback
    rw [if_pos rfl, if_neg (by simp [h2])]
  · unfold process_reply
    dsimp only
    cases hg : marker_match genTok (process_karma_markers reply db uid un).1 with
    | some p =>
      obtain ⟨g0, kw⟩ := p
      dsimp only
      cases hgi : gi kw with
      | some img => exact apply_fallback_ne _ _
      | none => exact apply_fallback_ne _ _
    | none =>
      dsimp only
      cases he : marker_match editTok (process_karma_markers reply db uid un).1 with
      | some p =>
        obtain ⟨e0, kw⟩ := p
        dsimp only
        exact apply_fallback_ne _ _
      | none => exact apply_fallback_ne _ _
  · intro h
    subst h
    have h1 : process_karma_markers [] db uid un = ([], db) := by
      have hp : containsSub [] karmaPlusTok = false := by decide
      have hm : containsSub [] karmaMinusTok = false := by decide
      simp [process_karma_markers, hp, hm]
    unfold process_reply
    rw [h1]
    rfl

/-- C9 witness: the empty generative reply displays "What?", and the
fallback clauses are exercised with and without a truthy image. -/
theorem c9_theorem_witness :
    ((process_reply [] [] "u" none (fun _ => none) (fun _ _ => none) none []
        (fun _ => none) (fun _ => "")).1 ≠ [] ∧
      (process_reply [] [] "u" none (fun _ => none) (fun _ _ => none) none []
        (fun _ => none) (fun _ => "")).1 = "What?".data) ∧
    apply_fallback [] (some "I") = "Here is your image.".data ∧
    apply_fallback [] none = "What?".data ∧
    ([] : PyStr) = [] :=
  ⟨⟨(c9_theorem [] [] "u" none (fun _ => none) (fun _ _ => none) none []
      (fun _ => none) (fun _ => "")).1,
    (c9_theorem [] [] "u" none (fun _ => none) (fun _ _ => none) none []
      (fun _ => none) (fun _ => "")).2.1 rfl⟩,
    (c9_theorem [] [] "u" none (fun _ => none) (fun _ _ => none) none []
      (fun _ => none) (fun _ => "")).2.2.1 [] (some "I") rfl (by decide),
    (c9_theorem [] [] "u" none (fun _ => none) (fun _ _ => none) none []
      (fun _ => none) (fun _ => "")).2.2.2.1 [] none rfl (by decide),
    rfl⟩

end AnanBot
